import Mathlib

/-!
# Verification of the race-sim backend (leaderboard, intent, run lifecycle)

Shallow embedding of the Python sources of the repository:

* `main.py` — `recompute_leaderboard`, `schedule_emit_leaderboard`,
  `process_telemetry_update`, `_mk_run_id`;
* `sim_config_api.py` — `mk_run_id`, `start_simulation`;
* `intent_service.py` — `broadcast_json`;
* `feature_extractor.py` — `DriverWindow`;
* `intent_predictor.py` — `IntentPredictor.predict`.

Conventions of the embedding:

* Python floats are modelled as rationals (`ℚ`); the float comparisons the
  code performs are exact order comparisons, and `float("inf")` sentinels are
  modelled by `WithTop ℚ` / `Option`.
* Python dicts are modelled as association lists (`List (String × V)`)
  preserving insertion order, with lookup returning the first (unique) match;
  `d[k] = v` updates in place when the key exists and appends otherwise,
  exactly as Python dicts behave.
* `asyncio` time and scheduling are modelled by an explicit scheduler state
  processed over a list of event timestamps (rationals): a pending deferred
  task fires at its deadline, before any later event.
-/

/-! ## Python dict primitives -/

/-- Python `d.get(k)` / `d[k]` lookup on an insertion-ordered dict. -/
def dget {V : Type} (d : List (String × V)) (k : String) : Option V :=
  (d.find? (fun kv => kv.1 = k)).map (·.2)

/-- Python `d[k] = v`: overwrite in place when the key is present, append
otherwise. -/
def dset {V : Type} (d : List (String × V)) (k : String) (v : V) :
    List (String × V) :=
  if (dget d k).isSome then d.map (fun kv => if kv.1 = k then (k, v) else kv)
  else d ++ [(k, v)]

/-- Python `d.update(p)`: assign every key/value pair of `p` into `d` in
order. -/
def dupdate {V : Type} (d p : List (String × V)) : List (String × V) :=
  p.foldl (fun acc kv => dset acc kv.1 kv.2) d

theorem dget_nil {V : Type} (k : String) : dget ([] : List (String × V)) k = none := rfl

theorem dget_cons {V : Type} (kv : String × V) (d : List (String × V)) (k : String) :
    dget (kv :: d) k = if kv.1 = k then some kv.2 else dget d k := by
  by_cases h : kv.1 = k <;> simp [dget, List.find?_cons, h]

theorem dget_append {V : Type} (d e : List (String × V)) (k : String) :
    dget (d ++ e) k = if (dget d k).isSome then dget d k else dget e k := by
  induction d with
  | nil => simp [dget_nil]
  | cons kv tl ih =>
    by_cases h : kv.1 = k <;>
      simp [List.cons_append, dget_cons, h, ih]

theorem dget_map_overwrite {V : Type} (d : List (String × V)) (k k' : String) (v : V) :
    dget (d.map (fun kv => if kv.1 = k then (k, v) else kv)) k' =
      if k' = k then (dget d k).map (fun _ => v) else dget d k' := by
  induction d with
  | nil => by_cases h : k' = k <;> simp [dget_nil, h]
  | cons kv tl ih =>
    by_cases h : kv.1 = k
    · by_cases h' : k' = k
      · subst h'
        simp [dget_cons, h, ih]
      · have hkk' : ¬ (k = k') := fun e => h' e.symm
        simp [dget_cons, h, h', hkk', ih]
    · by_cases h' : k' = k
      · subst h'
        simp [dget_cons, h, ih]
      · by_cases h'' : kv.1 = k'
        · simp [dget_cons, h, h', h'']
        · simp [dget_cons, h, h', h'', ih]

/-- The fundamental lookup/assignment law of the dict model. -/
theorem dget_dset {V : Type} (d : List (String × V)) (k k' : String) (v : V) :
    dget (dset d k v) k' = if k' = k then some v else dget d k' := by
  unfold dset
  by_cases hs : (dget d k).isSome
  · rw [if_pos hs, dget_map_overwrite]
    by_cases h' : k' = k
    · obtain ⟨w, hw⟩ := Option.isSome_iff_exists.mp hs
      simp [h', hw]
    · simp [h']
  · rw [if_neg hs, dget_append]
    by_cases h' : k' = k
    · subst h'
      have hnone : dget d k' = none := Option.not_isSome_iff_eq_none.mp hs
      simp [hnone, dget_cons]
    · by_cases hd : (dget d k').isSome
      · simp [hd, h']
      · have hnone : dget d k' = none := Option.not_isSome_iff_eq_none.mp hd
        have hne : ¬ (k = k') := fun e => h' e.symm
        simp [hnone, dget_cons, hne, h', dget_nil]

/-- A key absent from the assigned payload is untouched by `d.update(p)`. -/
theorem dget_dupdate_of_not_mem {V : Type} (d p : List (String × V)) (f : String)
    (hf : dget p f = none) : dget (dupdate d p) f = dget d f := by
  induction p generalizing d with
  | nil => rfl
  | cons kv tl ih =>
    rw [dget_cons] at hf
    by_cases h : kv.1 = f
    · simp [h] at hf
    · simp only [dupdate, List.foldl_cons]
      have step : dget (dset d kv.1 kv.2) f = dget d f := by
        rw [dget_dset, if_neg (fun e => h e.symm)]
      rw [show (tl.foldl (fun acc kv => dset acc kv.1 kv.2) (dset d kv.1 kv.2)) =
            dupdate (dset d kv.1 kv.2) tl from rfl,
          ih (dset d kv.1 kv.2) (by simpa [h] using hf), step]

/-! ## `feature_extractor.py` — `DriverWindow`

```python
class DriverWindow:
    def __init__(self, maxlen=40):
        self.buf = deque(maxlen=maxlen)
    def push(self, pkt: dict):
        self.buf.append(pkt)
```

A `deque(maxlen=m)` append evicts from the front exactly when the buffer is
full; nothing else ever evicts. -/

structure DriverWindow (α : Type) where
  maxlen : ℕ
  buf : List α

/-- `deque.append` with `maxlen`: append, then drop from the front whatever
exceeds capacity. -/
def DriverWindow.push {α : Type} (w : DriverWindow α) (p : α) : DriverWindow α :=
  let b := w.buf ++ [p]
  { w with buf := if w.maxlen < b.length then b.drop (b.length - w.maxlen) else b }

theorem DriverWindow.push_eq {α : Type} (w : DriverWindow α) (p : α) :
    w.push p = ⟨w.maxlen, (w.buf ++ [p]).drop ((w.buf ++ [p]).length - w.maxlen)⟩ := by
  unfold DriverWindow.push
  by_cases h : w.maxlen < (w.buf ++ [p]).length
  · simp only [if_pos h]
  · have h0 : (w.buf ++ [p]).length - w.maxlen = 0 :=
      Nat.sub_eq_zero_of_le (Nat.le_of_not_lt h)
    simp only [if_neg h, h0, List.drop_zero]

theorem DriverWindow.buf_foldl_push {α : Type} (m : ℕ) :
    ∀ (xs b : List α), b.length ≤ m →
      (xs.foldl DriverWindow.push ⟨m, b⟩).buf =
        (b ++ xs).drop ((b ++ xs).length - m)
  | [], b, hb => by
    simp [Nat.sub_eq_zero_of_le hb]
  | x :: xs, b, hb => by
    have hlen : ((b ++ [x]).drop ((b ++ [x]).length - m)).length ≤ m := by
      simp only [List.length_drop]
      omega
    rw [List.foldl_cons, DriverWindow.push_eq,
        DriverWindow.buf_foldl_push m xs _ hlen]
    have hk : (b ++ [x]).length - m ≤ (b ++ [x]).length := Nat.sub_le _ _
    rw [← List.drop_append_of_le_length hk, List.drop_drop]
    have harr : b ++ x :: xs = (b ++ [x]) ++ xs := by simp
    rw [harr]
    congr 1
    simp only [List.length_append, List.length_drop, List.length_cons]
    omega

/-! ## `intent_service.py` — `broadcast_json`

```python
async def broadcast_json(message: dict):
    async with clients_lock:
        to_remove = []
        for ws in list(clients):
            try:
                await ws.send_json(message)
            except Exception:
                to_remove.append(ws)
        for r in to_remove:
            clients.remove(r)
```

The registry `clients` is a Python `set` (no duplicate handles).  Delivery
outcome per handle is abstracted as a predicate `sendOk`; the function
returns, in loop order, the handles whose delivery succeeded (first
component) together with the registry after pruning (second component). -/

def broadcast_json {H : Type} [DecidableEq H] (clients : List H) (sendOk : H → Bool) :
    List H × List H :=
  (clients.filter sendOk,
   (clients.filter (fun ws => ! sendOk ws)).foldl (fun cs r => cs.erase r) clients)

theorem foldl_erase_eq_filter_not_mem {H : Type} [DecidableEq H] :
    ∀ (del l : List H), l.Nodup →
      del.foldl (fun cs r => cs.erase r) l = l.filter (fun x => decide (x ∉ del))
  | [], l, _ => by simp
  | d :: del, l, h => by
    rw [List.foldl_cons, foldl_erase_eq_filter_not_mem del (l.erase d) (h.erase d),
        h.erase_eq_filter d, List.filter_filter]
    refine List.filter_congr (fun x _ => ?_)
    by_cases h1 : x ∈ del <;> by_cases h2 : x = d <;> simp [h1, h2]

theorem broadcast_json_registry {H : Type} [DecidableEq H]
    (clients : List H) (sendOk : H → Bool) (h : clients.Nodup) :
    (broadcast_json clients sendOk).2 = clients.filter sendOk := by
  unfold broadcast_json
  rw [foldl_erase_eq_filter_not_mem _ _ h]
  refine List.filter_congr (fun x hx => ?_)
  by_cases hs : sendOk x <;> simp [List.mem_filter, hx, hs]

/-! ## `main.py` — `process_telemetry_update`

```python
async def process_telemetry_update(payload, sid=None):
    if not payload or "driver_id" not in payload:
        raise ValueError("missing driver_id in telemetry payload")
    driver_id = str(payload["driver_id"])
    async with leaderboard_lock:
        existing = driver_states.get(driver_id, {})
        updated = existing.copy()
        updated.update(payload)
        updated["last_update_ts"] = time.time()
        driver_states[driver_id] = updated
```

The server clock reading `time.time()` is passed in as `now`.  An empty
payload has no `"driver_id"` key, so the two failure conditions coincide. -/

inductive Value where
  | num (q : ℚ)
  | str (s : String)
deriving DecidableEq

/-- Python `str(v)` as applied to a telemetry field value. -/
def Value.toStr : Value → String
  | .str s => s
  | .num q => toString q

def process_telemetry_update (driver_states : List (String × List (String × Value)))
    (payload : List (String × Value)) (now : ℚ) :
    Except String (List (String × List (String × Value))) :=
  match dget payload "driver_id" with
  | none => .error "missing driver_id in telemetry payload"
  | some v =>
    let driver_id := v.toStr
    let existing := (dget driver_states driver_id).getD []
    let updated := dset (dupdate existing payload) "last_update_ts" (.num now)
    .ok (dset driver_states driver_id updated)

/-- C2.  Any store reachable by a sequence of merges is some `driver_states`;
a further merge whose payload omits field `f` leaves `f`'s previously merged
value intact (merge is per-field, never a full replace), while the
server-assigned `last_update_ts` is overwritten on every call. -/
theorem process_telemetry_update_merge
    (driver_states : List (String × List (String × Value)))
    (payload : List (String × Value)) (now : ℚ) (v : Value) (f : String)
    (hid : dget payload "driver_id" = some v)
    (hf : dget payload f = none)
    (hts : f ≠ "last_update_ts") :
    ∃ driver_states',
      process_telemetry_update driver_states payload now = .ok driver_states' ∧
      dget ((dget driver_states' v.toStr).getD []) f
        = dget ((dget driver_states v.toStr).getD []) f ∧
      dget ((dget driver_states' v.toStr).getD []) "last_update_ts"
        = some (.num now) := by
  refine ⟨_, by rw [process_telemetry_update, hid], ?_, ?_⟩
  · rw [dget_dset, if_pos rfl]
    simp only [Option.getD_some]
    rw [dget_dset, if_neg hts, dget_dupdate_of_not_mem _ _ _ hf]
  · rw [dget_dset, if_pos rfl]
    simp only [Option.getD_some]
    rw [dget_dset, if_pos rfl]

theorem process_telemetry_update_merge_witness :
    ∃ driver_states',
      process_telemetry_update
        [("car_01", [("completed_laps", Value.num 3), ("position", Value.num 2)])]
        [("driver_id", Value.str "car_01"), ("best_lap", Value.num 90)] 5
        = .ok driver_states' ∧
      dget ((dget driver_states' "car_01").getD []) "position"
        = dget ((dget [("car_01", [("completed_laps", Value.num 3),
            ("position", Value.num 2)])] "car_01").getD []) "position" ∧
      dget ((dget driver_states' "car_01").getD []) "last_update_ts"
        = some (.num 5) :=
  process_telemetry_update_merge
    [("car_01", [("completed_laps", Value.num 3), ("position", Value.num 2)])]
    [("driver_id", Value.str "car_01"), ("best_lap", Value.num 90)] 5
    (Value.str "car_01") "position" (by decide) (by decide) (by decide)

/-- C7.  A window of capacity 40 receiving 45 pushes holds exactly the 40 most
recent samples in push order; each push beyond capacity evicts exactly the
oldest sample. -/
theorem DriverWindow.capacity_forty {α : Type} (xs : List α) (h : xs.length = 45) :
    (xs.foldl DriverWindow.push ⟨40, []⟩).buf.length = 40 ∧
    (xs.foldl DriverWindow.push ⟨40, []⟩).buf = xs.drop 5 ∧
    (∀ (w : DriverWindow α) (p : α), w.maxlen = 40 → w.buf.length = 40 →
      (w.push p).buf = w.buf.drop 1 ++ [p]) := by
  have hbuf := DriverWindow.buf_foldl_push 40 xs [] (by simp)
  simp only [List.nil_append] at hbuf
  rw [h] at hbuf
  refine ⟨?_, by simpa using hbuf, ?_⟩
  · rw [hbuf, List.length_drop, h]
  · intro w p hm hl
    rw [DriverWindow.push_eq, hm]
    have : (w.buf ++ [p]).length - 40 = 1 := by simp [hl]
    rw [this, List.drop_append_of_le_length (by omega)]

theorem DriverWindow.capacity_forty_witness :
    ((List.range 45).foldl DriverWindow.push ⟨40, []⟩).buf.length = 40 ∧
    ((List.range 45).foldl DriverWindow.push ⟨40, []⟩).buf = (List.range 45).drop 5 ∧
    (∀ (w : DriverWindow ℕ) (p : ℕ), w.maxlen = 40 → w.buf.length = 40 →
      (w.push p).buf = w.buf.drop 1 ++ [p]) :=
  DriverWindow.capacity_forty (List.range 45) (by simp)

/-- C9.  `broadcast_json` attempts delivery to every handle registered at the
start of the call; every handle whose delivery fails is removed from the
registry before the call returns, and one handle's failure does not prevent
delivery to the remaining handles (successes are exactly the registered
handles whose own send succeeded). -/
theorem broadcast_json_selfheal {H : Type} [DecidableEq H]
    (clients : List H) (sendOk : H → Bool) (h : clients.Nodup) :
    (broadcast_json clients sendOk).1 = clients.filter sendOk ∧
    (∀ x ∈ clients, sendOk x = true → x ∈ (broadcast_json clients sendOk).1) ∧
    (∀ x ∈ clients, sendOk x = false → x ∉ (broadcast_json clients sendOk).2) ∧
    (broadcast_json clients sendOk).2 = clients.filter sendOk := by
  refine ⟨rfl, ?_, ?_, broadcast_json_registry clients sendOk h⟩
  · intro x hx hs
    exact List.mem_filter.mpr ⟨hx, hs⟩
  · intro x hx hs hmem
    rw [broadcast_json_registry clients sendOk h] at hmem
    have := (List.mem_filter.mp hmem).2
    rw [hs] at this
    exact Bool.false_ne_true this

theorem broadcast_json_selfheal_witness :
    (broadcast_json [0, 1, 2] (fun x => decide (x ≠ 1))).1
      = [0, 1, 2].filter (fun x => decide (x ≠ 1)) ∧
    (∀ x ∈ [0, 1, 2], (fun x => decide (x ≠ 1)) x = true →
      x ∈ (broadcast_json [0, 1, 2] (fun x => decide (x ≠ 1))).1) ∧
    (∀ x ∈ [0, 1, 2], (fun x => decide (x ≠ 1)) x = false →
      x ∉ (broadcast_json [0, 1, 2] (fun x => decide (x ≠ 1))).2) ∧
    (broadcast_json [0, 1, 2] (fun x => decide (x ≠ 1))).2
      = [0, 1, 2].filter (fun x => decide (x ≠ 1)) :=
  broadcast_json_selfheal [0, 1, 2] (fun x => decide (x ≠ 1)) (by decide)

/-! ## Run id derivation

`main.py`:
```python
def _mk_run_id(name=None):
    ts = datetime.now(timezone.utc).strftime("%Y%m%dT%H%M%SZ")
    if name:
        safe = "".join(c if c.isalnum() or c in "-_" else "_" for c in name)[:40]
        return f"{safe}_{ts}"
    return f"run_{ts}"
```

`sim_config_api.py`:
```python
def mk_run_id(name=None):
    ts = datetime.utcnow().strftime("%Y%m%dT%H%M%SZ")
    if name:
        safe = name.replace(" ", "_")
        return f"{safe}_{ts}"
    return f"run_{ts}"
```

Strings are modelled as `List Char`; the UTC timestamp string is a
parameter. -/

/-- Python truthiness of an optional string (`if name:`): `None` and the
empty string are falsy. -/
def truthy (o : Option (List Char)) : Bool :=
  match o with
  | some (_ :: _) => true
  | _ => false

/-- One character of `main.py`'s sanitization: keep alphanumerics, `-` and
`_`; replace anything else with `_`. -/
def pySafeChar (c : Char) : Char :=
  if c.isAlphanum ∨ c = '-' ∨ c = '_' then c else '_'

/-- `main.py`'s `_mk_run_id`. -/
def mk_run_id_main (name : Option (List Char)) (ts : List Char) : List Char :=
  if truthy name then ((name.getD []).map pySafeChar).take 40 ++ '_' :: ts
  else "run_".toList ++ ts

/-- `sim_config_api.py`'s `mk_run_id`: only `name.replace(" ", "_")`, no
charset sanitization and no truncation. -/
def mk_run_id (name : Option (List Char)) (ts : List Char) : List Char :=
  if truthy name then ((name.getD []).map (fun c => if c = ' ' then '_' else c)) ++ '_' :: ts
  else "run_".toList ++ ts

/-- C8 counterexample.  `sim_config_api.mk_run_id` does not sanitize the name
to the safe identifier charset: for the name `"a/b"` the produced run id keeps
the `/`, differing from the sanitized-and-truncated form the claim requires. -/
theorem mk_run_id_not_sanitized :
    mk_run_id (some "a/b".toList) "20240101T000000Z".toList
      = "a/b_20240101T000000Z".toList ∧
    mk_run_id (some "a/b".toList) "20240101T000000Z".toList
      ≠ ("a/b".toList.map pySafeChar).take 40 ++ '_' :: "20240101T000000Z".toList ∧
    '/' ∈ mk_run_id (some "a/b".toList) "20240101T000000Z".toList ∧
    pySafeChar '/' = '_' := by
  refine ⟨by decide, by decide, by decide, by decide⟩

/-- C8 amended.  `main._mk_run_id` derives the run id by sanitizing the name
to the charset of alphanumerics, `-` and `_`, truncating to 40 characters and
appending `_` and the UTC timestamp; `sim_config_api.mk_run_id` only replaces
spaces by underscores (no charset sanitization, no truncation) before
appending `_` and the timestamp; with no name (or an empty name) both return
the timestamp-only id `run_<ts>`. -/
theorem mk_run_id_spec (n ts : List Char) (h : n ≠ []) :
    mk_run_id_main (some n) ts = (n.map pySafeChar).take 40 ++ '_' :: ts ∧
    (∀ c ∈ (n.map pySafeChar).take 40, (c.isAlphanum ∨ c = '-' ∨ c = '_')) ∧
    ((n.map pySafeChar).take 40).length ≤ 40 ∧
    mk_run_id (some n) ts
      = (n.map (fun c => if c = ' ' then '_' else c)) ++ '_' :: ts ∧
    mk_run_id_main none ts = "run_".toList ++ ts ∧
    mk_run_id none ts = "run_".toList ++ ts := by
  obtain ⟨c₀, rest, rfl⟩ := List.exists_cons_of_ne_nil h
  refine ⟨rfl, ?_, ?_, rfl, rfl, rfl⟩
  · intro c hc
    obtain ⟨x, _, rfl⟩ := List.mem_map.mp (List.mem_of_mem_take hc)
    by_cases hx : (x.isAlphanum ∨ x = '-' ∨ x = '_')
    · simp only [pySafeChar, if_pos hx]
      exact hx
    · simp [pySafeChar, hx]
  · simp [Nat.min_le_left]

theorem mk_run_id_spec_witness :
    (mk_run_id_main (some "my run!".toList) "T0".toList
      = ("my run!".toList.map pySafeChar).take 40 ++ '_' :: "T0".toList ∧
    (∀ c ∈ ("my run!".toList.map pySafeChar).take 40,
      (c.isAlphanum ∨ c = '-' ∨ c = '_')) ∧
    (("my run!".toList.map pySafeChar).take 40).length ≤ 40 ∧
    mk_run_id (some "my run!".toList) "T0".toList
      = ("my run!".toList.map (fun c => if c = ' ' then '_' else c)) ++ '_' :: "T0".toList ∧
    mk_run_id_main none "T0".toList = "run_".toList ++ "T0".toList ∧
    mk_run_id none "T0".toList = "run_".toList ++ "T0".toList) :=
  mk_run_id_spec "my run!".toList "T0".toList (by decide)

/-! ## `sim_config_api.py` — `start_simulation`

```python
@router.post("/start")
def start_simulation(config: SimConfig = Body(...), force: bool = Query(False)):
    global current_run_id, current_replay
    run_id = mk_run_id(config.run_name)
    cfg_dict = config.dict()
    cfg_dict["_meta"] = {...}
    save_config_file(run_id, cfg_dict)          # <-- disk write BEFORE the check
    if current_run_id and not force:
        raise HTTPException(status_code=409, ...)
    current_run_id = run_id
    current_replay = {"run_id": run_id, ..., "telemetry": [], ...}
    with open(replay_path, "w") as f:           # new run's skeleton
        json.dump(current_replay, f, indent=2)
    return {"ok": True, "run_id": run_id, ...}
```

The durable store is modelled as a dict from file name to file content; the
replay record keeps its run id and its (abstracted) telemetry sequence. -/

structure ReplayRec where
  run_id : String
  telemetry : List ℕ
deriving DecidableEq

inductive FileData where
  | config (run_id : String)
  | replay (r : ReplayRec)
deriving DecidableEq

inductive StartResult where
  | conflict (active : String)
  | ok (run_id : String)
deriving DecidableEq

structure SimState where
  current_run_id : Option String
  current_replay : Option ReplayRec
  disk : List (String × FileData)
deriving DecidableEq

/-- Python truthiness of the optional current run id. -/
def pyTruthyStr (o : Option String) : Bool := o.getD "" ≠ ""

def start_simulation (st : SimState) (run_name : Option (List Char)) (force : Bool)
    (ts : List Char) : SimState × StartResult :=
  let run_id : String := String.mk (mk_run_id run_name ts)
  let disk1 := dset st.disk (run_id ++ "_config.json") (.config run_id)
  if pyTruthyStr st.current_run_id && !force then
    ({ st with disk := disk1 }, .conflict (st.current_run_id.getD ""))
  else
    let replay : ReplayRec := ⟨run_id, []⟩
    ({ current_run_id := some run_id, current_replay := some replay,
       disk := dset disk1 (run_id ++ ".json") (.replay replay) }, .ok run_id)

/-- A state with an active run `"old"` whose in-memory replay record holds
telemetry `[1, 2, 3]` that is not yet on disk (the durable copy is the empty
skeleton). -/
def sampleSimState : SimState :=
  { current_run_id := some "old"
    current_replay := some ⟨"old", [1, 2, 3]⟩
    disk := [("old.json", .replay ⟨"old", []⟩), ("old_config.json", .config "old")] }

/-- C4 counterexample.  Without the override flag the call does fail with a
conflict, but the new run's config file has already been durably written, so
durable records do NOT stay unchanged; and with the override flag the prior
run's in-memory record (telemetry `[1, 2, 3]`) is NOT flushed to disk before
the new run becomes current — the durable `old.json` still holds the stale
empty skeleton. -/
theorem start_simulation_writes_on_conflict :
    (start_simulation sampleSimState (some "new".toList) false "T".toList).2
      = .conflict "old" ∧
    (start_simulation sampleSimState (some "new".toList) false "T".toList).1.disk
      ≠ sampleSimState.disk ∧
    dget (start_simulation sampleSimState (some "new".toList) true "T".toList).1.disk
        "old.json" = some (.replay ⟨"old", []⟩) ∧
    dget (start_simulation sampleSimState (some "new".toList) true "T".toList).1.disk
        "old.json" ≠ some (.replay ⟨"old", [1, 2, 3]⟩) := by
  refine ⟨by decide, by decide, by decide, by decide⟩

/-- C4 amended.  Starting a run while one is active without override fails
with a conflict and leaves the in-memory run state (current run id and
current replay) unchanged, but the new run's config file has already been
durably written; with override the new run id and an empty replay skeleton
atomically become current and only the new run's config and replay files are
written — the prior run's record is not flushed before being replaced. -/
theorem start_simulation_spec (st : SimState) (run_name : Option (List Char))
    (ts : List Char) (h : pyTruthyStr st.current_run_id = true) :
    (start_simulation st run_name false ts).2
      = .conflict (st.current_run_id.getD "") ∧
    (start_simulation st run_name false ts).1.current_run_id = st.current_run_id ∧
    (start_simulation st run_name false ts).1.current_replay = st.current_replay ∧
    (start_simulation st run_name false ts).1.disk
      = dset st.disk (String.mk (mk_run_id run_name ts) ++ "_config.json")
          (.config (String.mk (mk_run_id run_name ts))) ∧
    (start_simulation st run_name true ts).1.current_run_id
      = some (String.mk (mk_run_id run_name ts)) ∧
    (start_simulation st run_name true ts).1.current_replay
      = some ⟨String.mk (mk_run_id run_name ts), []⟩ ∧
    (∀ f : String, f ≠ String.mk (mk_run_id run_name ts) ++ "_config.json" →
      f ≠ String.mk (mk_run_id run_name ts) ++ ".json" →
      dget (start_simulation st run_name true ts).1.disk f = dget st.disk f) := by
  have hc1 : (pyTruthyStr st.current_run_id && !false) = true := by simp [h]
  have hc2 : (pyTruthyStr st.current_run_id && !true) = false := by simp
  refine ⟨?_, ?_, ?_, ?_, ?_, ?_, ?_⟩ <;>
    simp only [start_simulation, hc1, hc2, if_true, if_false, Bool.false_eq_true]
  intro f h1 h2
  rw [dget_dset, if_neg h2, dget_dset, if_neg h1]

theorem start_simulation_spec_witness :
    ((start_simulation sampleSimState (some "new".toList) false "T".toList).2
      = .conflict (sampleSimState.current_run_id.getD "") ∧
    (start_simulation sampleSimState (some "new".toList) false "T".toList).1.current_run_id
      = sampleSimState.current_run_id ∧
    (start_simulation sampleSimState (some "new".toList) false "T".toList).1.current_replay
      = sampleSimState.current_replay ∧
    (start_simulation sampleSimState (some "new".toList) false "T".toList).1.disk
      = dset sampleSimState.disk
          (String.mk (mk_run_id (some "new".toList) "T".toList) ++ "_config.json")
          (.config (String.mk (mk_run_id (some "new".toList) "T".toList))) ∧
    (start_simulation sampleSimState (some "new".toList) true "T".toList).1.current_run_id
      = some (String.mk (mk_run_id (some "new".toList) "T".toList)) ∧
    (start_simulation sampleSimState (some "new".toList) true "T".toList).1.current_replay
      = some ⟨String.mk (mk_run_id (some "new".toList) "T".toList), []⟩ ∧
    (∀ f : String,
      f ≠ String.mk (mk_run_id (some "new".toList) "T".toList) ++ "_config.json" →
      f ≠ String.mk (mk_run_id (some "new".toList) "T".toList) ++ ".json" →
      dget (start_simulation sampleSimState (some "new".toList) true "T".toList).1.disk f
        = dget sampleSimState.disk f)) :=
  start_simulation_spec sampleSimState (some "new".toList) "T".toList (by decide)

/-! ## `main.py` — `schedule_emit_leaderboard`

```python
EMIT_INTERVAL_S = 0.5

async def schedule_emit_leaderboard():
    global last_emit_ts, _emit_task
    now = time.time()
    elapsed = now - last_emit_ts
    remaining = max(0.0, EMIT_INTERVAL_S - elapsed)
    if _emit_task is not None and not _emit_task.done():
        return
    async def _delayed_emit(wait):
        try:
            if wait > 0:
                await asyncio.sleep(wait)
            leaderboard = await recompute_leaderboard()
            await sio.emit("leaderboard:update", ...)
            last_emit_ts = time.time()
        finally:
            _emit_task = None
    _emit_task = asyncio.create_task(_delayed_emit(remaining))
```

Model: the scheduler state carries the last emission time, the deadline of
the outstanding deferred task (if any) and the log of emissions, each tagged
with the driver-store version (= number of merges so far) it read.  Events
are driven by a time-sorted list of `notify()` timestamps; each notify is
preceded by the merge that bumps the store version; a deferred task whose
deadline has been reached fires before the next event, and after the last
event the outstanding task (if any) fires at its deadline. -/

def EMIT_INTERVAL_S : ℚ := 1 / 2

structure SchedState where
  last_emit_ts : ℚ
  pending : Option ℚ
  emits : List (ℚ × ℕ)
deriving DecidableEq

/-- One `schedule_emit_leaderboard()` call at wall-clock `now`: a no-op when
a deferred task is outstanding, otherwise it schedules one task to fire
after `max 0 (EMIT_INTERVAL_S - (now - last_emit_ts))`. -/
def schedule_emit_leaderboard (s : SchedState) (now : ℚ) : SchedState :=
  match s.pending with
  | some _ => s
  | none =>
    { s with pending := some (now + max 0 (EMIT_INTERVAL_S - (now - s.last_emit_ts))) }

/-- The deferred `_delayed_emit` task firing at its deadline: recompute from
the live store (version `ver`), emit, record the emission time, clear the
task slot. -/
def fire (s : SchedState) (ver : ℕ) : SchedState :=
  match s.pending with
  | some d => { last_emit_ts := d, pending := none, emits := s.emits ++ [(d, ver)] }
  | none => s

def runSched : SchedState → ℕ → List ℚ → SchedState
  | s, ver, [] => fire s ver
  | s, ver, t :: ts =>
    let s1 := match s.pending with
      | some d => if d ≤ t then fire s ver else s
      | none => s
    runSched (schedule_emit_leaderboard s1 t) (ver + 1) ts

theorem schedule_emit_noop_of_pending (s : SchedState) (now d : ℚ)
    (h : s.pending = some d) : schedule_emit_leaderboard s now = s := by
  simp only [schedule_emit_leaderboard, h]

theorem schedule_emit_of_idle (s : SchedState) (now : ℚ) (h : s.pending = none) :
    schedule_emit_leaderboard s now =
      { s with pending := some (now + max 0 (EMIT_INTERVAL_S - (now - s.last_emit_ts))) } := by
  simp only [schedule_emit_leaderboard, h]

theorem runSched_nil (s : SchedState) (ver : ℕ) : runSched s ver [] = fire s ver := rfl

theorem runSched_cons_idle (s : SchedState) (ver : ℕ) (t : ℚ) (ts : List ℚ)
    (h : s.pending = none) :
    runSched s ver (t :: ts) = runSched (schedule_emit_leaderboard s t) (ver + 1) ts := by
  simp only [runSched, h]

theorem runSched_cons_due (s : SchedState) (ver : ℕ) (t : ℚ) (ts : List ℚ) (d : ℚ)
    (h : s.pending = some d) (hd : d ≤ t) :
    runSched s ver (t :: ts)
      = runSched (schedule_emit_leaderboard (fire s ver) t) (ver + 1) ts := by
  simp only [runSched, h, if_pos hd]

theorem runSched_cons_notdue (s : SchedState) (ver : ℕ) (t : ℚ) (ts : List ℚ) (d : ℚ)
    (h : s.pending = some d) (hd : ¬ d ≤ t) :
    runSched s ver (t :: ts) = runSched s (ver + 1) ts := by
  simp only [runSched, h, if_neg hd]
  rw [schedule_emit_noop_of_pending s t d h]

/-- While a deferred task with deadline `d` is outstanding, every notify
strictly before `d` is coalesced, and the single fire at `d` reads the store
version current at that moment. -/
theorem runSched_coalesce (d le : ℚ) (es : List (ℚ × ℕ)) (ver : ℕ) :
    ∀ ts : List ℚ, (∀ x ∈ ts, x < d) →
      runSched ⟨le, some d, es⟩ ver ts = ⟨d, none, es ++ [(d, ver + ts.length)]⟩
  | [], _ => by simp [runSched_nil, fire]
  | t :: ts, h => by
    have hd : ¬ d ≤ t := not_le.mpr (h t (by simp))
    rw [runSched_cons_notdue _ _ _ _ d rfl hd,
        runSched_coalesce d le es (ver + 1) ts (fun x hx => h x (by simp [hx]))]
    have hn : ver + 1 + ts.length = ver + (t :: ts).length := by
      simp [List.length_cons]
      omega
    rw [hn]

/-- C3 counterexample.  Two `notify()` calls only a quarter interval apart
(strictly less than one debounce interval), arriving when the last emission
is long past: the first call schedules an immediate emit (wait 0), the second
arrives after that emit has fired and schedules a second one — two broadcasts
are delivered, not exactly one. -/
theorem schedule_emit_burst_two_emits :
    ((100 + 1 / 4 : ℚ) - 100 < EMIT_INTERVAL_S) ∧
    (runSched ⟨0, none, []⟩ 0 [100, 100 + 1 / 4]).emits.length = 2 := by
  refine ⟨by norm_num [EMIT_INTERVAL_S], ?_⟩
  have e1 : schedule_emit_leaderboard ⟨0, none, []⟩ 100 = ⟨0, some 100, []⟩ := by
    rw [schedule_emit_of_idle _ _ rfl]
    have hm : (100 : ℚ) + max 0 (EMIT_INTERVAL_S - ((100 : ℚ) - (0 : ℚ))) = 100 := by
      rw [max_eq_left (by norm_num [EMIT_INTERVAL_S])]
      ring
    rw [hm]
  have e2 : fire ⟨0, some 100, []⟩ 1 = ⟨100, none, [(100, 1)]⟩ := rfl
  have e3 : schedule_emit_leaderboard ⟨100, none, [(100, 1)]⟩ (100 + 1 / 4)
      = ⟨100, some (100 + 1 / 2), [(100, 1)]⟩ := by
    rw [schedule_emit_of_idle _ _ rfl]
    have hm : max 0 (EMIT_INTERVAL_S - ((100 + 1 / 4 : ℚ) - (100 : ℚ))) = 1 / 4 := by
      rw [max_eq_right (by norm_num [EMIT_INTERVAL_S])]
      norm_num [EMIT_INTERVAL_S]
    rw [hm]
    norm_num
  rw [runSched_cons_idle _ _ _ _ rfl, e1,
      runSched_cons_due _ _ _ _ 100 rfl (by norm_num), e2, e3, runSched_nil]
  rfl

/-- C3 amended.  If every notify arrives strictly less than one debounce
interval after the last emission (so all of them land before the single
deferred deadline `last_emit_ts + EMIT_INTERVAL_S`), exactly one broadcast
is delivered, at that deadline, and it reads the store version current at
the last notify (state no older than the last notify's trigger); moreover a
`notify()` arriving while a deferred emit is outstanding is always a no-op,
so at most one deferred task is ever outstanding. -/
theorem schedule_emit_debounce (le t : ℚ) (ts : List ℚ)
    (h1 : t - le < EMIT_INTERVAL_S)
    (h2 : ∀ x ∈ ts, x < le + EMIT_INTERVAL_S) :
    (runSched ⟨le, none, []⟩ 0 (t :: ts)).emits
        = [(le + EMIT_INTERVAL_S, (t :: ts).length)] ∧
    (∀ (s : SchedState) (u d : ℚ), s.pending = some d →
      schedule_emit_leaderboard s u = s) := by
  refine ⟨?_, fun s u d h => schedule_emit_noop_of_pending s u d h⟩
  rw [runSched_cons_idle _ _ _ _ rfl, schedule_emit_of_idle _ _ rfl]
  have hdl : t + max 0 (EMIT_INTERVAL_S - (t - le)) = le + EMIT_INTERVAL_S := by
    rw [max_eq_right (by linarith)]
    ring
  simp only [hdl]
  rw [runSched_coalesce (le + EMIT_INTERVAL_S) le [] 1 ts h2]
  simp [List.length_cons]
  omega

theorem schedule_emit_debounce_witness :
    ((runSched ⟨0, none, []⟩ 0 [1 / 4, 1 / 3]).emits
        = [((0 : ℚ) + EMIT_INTERVAL_S, ([1 / 4, 1 / 3] : List ℚ).length)] ∧
    (∀ (s : SchedState) (u d : ℚ), s.pending = some d →
      schedule_emit_leaderboard s u = s)) :=
  schedule_emit_debounce 0 (1 / 4) [1 / 3]
    (by norm_num [EMIT_INTERVAL_S])
    (by intro x hx; simp at hx; subst hx; norm_num [EMIT_INTERVAL_S])

/-! ## `main.py` — `recompute_leaderboard`

```python
MAX_LEADERBOARD = 20

async def recompute_leaderboard():
    async with leaderboard_lock:
        drivers = list(driver_states.values())
    def sort_key(d):
        return (
            -int(d.get("completed_laps", 0)),
            int(d.get("position", 9999)),
            float(d.get("total_time", float("inf"))),
            float(d.get("best_lap", float("inf"))),
        )
    drivers.sort(key=sort_key)          # Python sort is stable
    top = drivers[:MAX_LEADERBOARD]
    leaderboard = []
    for idx, d in enumerate(top, start=1):
        item = d.copy()
        item["rank"] = idx
        leaderboard.append(item)
    return leaderboard
```

A driver snapshot is modelled by its four ranking fields (each possibly
missing) plus its id; the missing-value sentinels are `0`, `9999` and
`float("inf")` (the latter as `⊤` in `WithTop ℚ`).  Python's tuple
comparison is the lexicographic order on the key; `list.sort` is a stable
sort, modelled by `List.mergeSort` (stable by construction); `enumerate(top,
start=1)` is `List.enumFrom 1`, annotating each retained entry with its
1-based rank. -/

structure Driver where
  id : String
  completed_laps : Option Int
  position : Option Int
  total_time : Option ℚ
  best_lap : Option ℚ
deriving DecidableEq

/-- `d.get(k, float("inf"))`: a missing value sorts as `+∞`. -/
def toTop (o : Option ℚ) : WithTop ℚ :=
  match o with
  | some q => (q : WithTop ℚ)
  | none => ⊤

abbrev SortKey := Lex (Int × Lex (Int × Lex (WithTop ℚ × WithTop ℚ)))

def sort_key (d : Driver) : SortKey :=
  toLex (-(d.completed_laps.getD 0),
    toLex (d.position.getD 9999,
      toLex (toTop d.total_time, toTop d.best_lap)))

/-- The comparison `drivers.sort(key=sort_key)` sorts by. -/
def keyLe (a b : Driver) : Bool := decide (sort_key a ≤ sort_key b)

def MAX_LEADERBOARD : ℕ := 20

def recompute_leaderboard (drivers : List Driver) : List (ℕ × Driver) :=
  List.enumFrom 1 ((drivers.mergeSort keyLe).take MAX_LEADERBOARD)

theorem keyLe_trans : ∀ a b c : Driver, keyLe a b → keyLe b c → keyLe a c := by
  intro a b c hab hbc
  simp only [keyLe, decide_eq_true_eq] at hab hbc ⊢
  exact le_trans hab hbc

theorem keyLe_total : ∀ a b : Driver, keyLe a b || keyLe b a := by
  intro a b
  simp only [keyLe]
  rcases le_total (sort_key a) (sort_key b) with h | h <;> simp [h]

theorem mergeSort_pair {α : Type} (a b : α) (le : α → α → Bool) :
    List.mergeSort [a, b] le = if le a b then [a, b] else [b, a] := by
  rw [List.mergeSort]
  simp [List.splitInTwo, List.splitAt_eq, List.mergeSort, List.merge]

/-- The scenario drivers: both on 3 completed laps, `car_02` in position 1,
`car_01` in position 2; `car_01` was ingested first. -/
def car01 : Driver := ⟨"car_01", some 3, some 2, none, none⟩

def car02 : Driver := ⟨"car_02", some 3, some 1, none, none⟩

/-- C1.  The leaderboard is the driver list stably sorted ascending by the
lexicographic key (negated completed laps, position with missing as 9999,
total time with missing as `+∞`, best lap with missing as `+∞`), truncated
to the top `MAX_LEADERBOARD = 20` and annotated with 1-based ranks: the
output is sorted by the key, the sort is a permutation of the input,
equal-key entries keep their encounter order, ranks are `1, 2, …`, and the
two-driver scenario ranks `car_02` first and `car_01` second. -/
theorem recompute_leaderboard_spec (ds : List Driver) :
    recompute_leaderboard ds
      = List.enumFrom 1 ((ds.mergeSort keyLe).take MAX_LEADERBOARD) ∧
    List.Perm (ds.mergeSort keyLe) ds ∧
    ((recompute_leaderboard ds).map Prod.snd).Pairwise (fun a b => keyLe a b = true) ∧
    ((recompute_leaderboard ds).map Prod.fst
      = List.range' 1 (min MAX_LEADERBOARD ds.length)) ∧
    (∀ a b : Driver, List.Sublist [a, b] ds → sort_key a = sort_key b →
      List.Sublist [a, b] (ds.mergeSort keyLe)) ∧
    recompute_leaderboard [car01, car02] = [(1, car02), (2, car01)] := by
  refine ⟨rfl, List.mergeSort_perm ds keyLe, ?_, ?_, ?_, ?_⟩
  · have hs := List.sorted_mergeSort keyLe_trans keyLe_total ds
    have hmap : (recompute_leaderboard ds).map Prod.snd
        = (ds.mergeSort keyLe).take MAX_LEADERBOARD := by
      simp [recompute_leaderboard, List.enumFrom_map_snd]
    rw [hmap]
    exact List.Pairwise.sublist (List.take_sublist _ _) hs
  · simp [recompute_leaderboard, List.enumFrom_map_fst, List.length_take,
      List.length_mergeSort]
  · intro a b hab hkey
    have hk : keyLe a b = true := by
      simp [keyLe, hkey]
    exact List.sublist_mergeSort keyLe_trans keyLe_total
      (by simp [List.pairwise_cons, hk]) hab
  · have hk : keyLe car01 car02 = false := by decide
    rw [recompute_leaderboard, mergeSort_pair, hk]
    rfl

theorem recompute_leaderboard_spec_witness :
    (recompute_leaderboard [car01, car02]
      = List.enumFrom 1 (([car01, car02].mergeSort keyLe).take MAX_LEADERBOARD) ∧
    List.Perm ([car01, car02].mergeSort keyLe) [car01, car02] ∧
    ((recompute_leaderboard [car01, car02]).map Prod.snd).Pairwise
      (fun a b => keyLe a b = true) ∧
    ((recompute_leaderboard [car01, car02]).map Prod.fst
      = List.range' 1 (min MAX_LEADERBOARD ([car01, car02] : List Driver).length)) ∧
    (∀ a b : Driver, List.Sublist [a, b] [car01, car02] → sort_key a = sort_key b →
      List.Sublist [a, b] ([car01, car02].mergeSort keyLe)) ∧
    recompute_leaderboard [car01, car02] = [(1, car02), (2, car01)]) :=
  recompute_leaderboard_spec [car01, car02]

/-! ## `intent_predictor.py` — `IntentPredictor.predict`

```python
INTENTS = ["push", "conserve", "prepare_pit", "bluff"]

def predict(self, features):
    if not features:
        probs = {i: 1.0/len(self.INTENTS) for i in self.INTENTS}
        return "conserve", probs, 1.0/len(self.INTENTS)
    spd_mean = features.get("speed_mean", 0.0)
    ...
    scores = {i: 0.0 for i in self.INTENTS}
    if spd_mean > 35 and delta_speed > 0.5 and throttle > 40: scores["push"] += 2.0
    if spd_std > 3.0:                                         scores["push"] += 0.5
    if tyre_temp > 80 and brake > 10:                         scores["prepare_pit"] += 2.0
    if brake > 20 and lapprog_slope < 0:                      scores["prepare_pit"] += 1.0
    if spd_mean < 25 and throttle < 30 and spd_std < 2.0:     scores["conserve"] += 2.0
    if abs(lapprog_slope) < 0.001:                            scores["conserve"] += 0.5
    if spd_std > 6.0 and abs(delta_speed) > 3.0 and brake < 5: scores["bluff"] += 1.5
    for k in scores: scores[k] += 0.01
    total = sum(scores.values())
    probs = {k: float(v/total) for k,v in scores.items()}
    intent = max(probs, key=probs.get)
    confidence = float(probs[intent])
    return intent, probs, confidence
```

`max(probs, key=probs.get)` iterates the dict in insertion order and keeps
the current best unless a strictly greater value appears, so arg-max ties
resolve to the earliest label. -/

def INTENTS : List String := ["push", "conserve", "prepare_pit", "bluff"]

/-- `features.get(name, 0.0)`. -/
def fget (features : List (String × ℚ)) (k : String) : ℚ := (dget features k).getD 0

/-- `scores[k] += w` (the key is always present). -/
def scoreAdd (scores : List (String × ℚ)) (k : String) (w : ℚ) : List (String × ℚ) :=
  scores.map (fun kv => if kv.1 = k then (kv.1, kv.2 + w) else kv)

/-- The running best of Python `max(...)`: replaced only by a strictly
greater value. -/
def pyBest (kv : String × ℚ) (l : List (String × ℚ)) : String × ℚ :=
  l.foldl (fun best x => if best.2 < x.2 then x else best) kv

/-- Python `max(probs, key=probs.get)`. -/
def pyMax (l : List (String × ℚ)) : String :=
  match l with
  | [] => ""
  | kv :: rest => (pyBest kv rest).1

/-- `scores = {i: 0.0 for i in INTENTS}`. -/
def baseScores : List (String × ℚ) := INTENTS.map (fun i => (i, 0))

/-- The seven conditional score bumps of `predict`, in source order. -/
def rawScores (features : List (String × ℚ)) : List (String × ℚ) :=
  let s1 := if 35 < fget features "speed_mean" ∧ 1 / 2 < fget features "delta_speed" ∧
      40 < fget features "throttle_mean" then scoreAdd baseScores "push" 2 else baseScores
  let s2 := if 3 < fget features "speed_std" then scoreAdd s1 "push" (1 / 2) else s1
  let s3 := if 80 < fget features "tyre_temp_mean" ∧ 10 < fget features "brake_mean" then
      scoreAdd s2 "prepare_pit" 2 else s2
  let s4 := if 20 < fget features "brake_mean" ∧ fget features "lapprog_slope" < 0 then
      scoreAdd s3 "prepare_pit" 1 else s3
  let s5 := if fget features "speed_mean" < 25 ∧ fget features "throttle_mean" < 30 ∧
      fget features "speed_std" < 2 then scoreAdd s4 "conserve" 2 else s4
  let s6 := if |fget features "lapprog_slope"| < 1 / 1000 then
      scoreAdd s5 "conserve" (1 / 2) else s5
  if 6 < fget features "speed_std" ∧ 3 < |fget features "delta_speed"| ∧
      fget features "brake_mean" < 5 then scoreAdd s6 "bluff" (3 / 2) else s6

def predict (features : List (String × ℚ)) : String × List (String × ℚ) × ℚ :=
  if features.isEmpty then
    ("conserve", INTENTS.map (fun i => (i, 1 / 4)), 1 / 4)
  else
    let scores := (rawScores features).map (fun kv => (kv.1, kv.2 + 1 / 100))
    let total := (scores.map (fun kv => kv.2)).sum
    let probs := scores.map (fun kv => (kv.1, kv.2 / total))
    (pyMax probs, probs, fget probs (pyMax probs))

/-- Shape invariant of the score dict: the four fixed labels in order, with
non-negative values. -/
def scoresShape (s : List (String × ℚ)) : Prop :=
  ∃ a b c d : ℚ,
    s = [("push", a), ("conserve", b), ("prepare_pit", c), ("bluff", d)] ∧
    0 ≤ a ∧ 0 ≤ b ∧ 0 ≤ c ∧ 0 ≤ d

theorem scoresShape_base : scoresShape baseScores :=
  ⟨0, 0, 0, 0, rfl, le_refl 0, le_refl 0, le_refl 0, le_refl 0⟩

theorem scoreAdd_explicit (a b c d : ℚ) (k : String) (w : ℚ) :
    scoreAdd [("push", a), ("conserve", b), ("prepare_pit", c), ("bluff", d)] k w
      = [("push", if ("push" : String) = k then a + w else a),
         ("conserve", if ("conserve" : String) = k then b + w else b),
         ("prepare_pit", if ("prepare_pit" : String) = k then c + w else c),
         ("bluff", if ("bluff" : String) = k then d + w else d)] := by
  simp only [scoreAdd, List.map_cons, List.map_nil]
  split_ifs <;> rfl

theorem scoresShape_scoreAdd (s : List (String × ℚ)) (k : String) (w : ℚ)
    (hw : 0 ≤ w) (h : scoresShape s) : scoresShape (scoreAdd s k w) := by
  obtain ⟨a, b, c, d, rfl, ha, hb, hc, hd⟩ := h
  rw [scoreAdd_explicit]
  refine ⟨_, _, _, _, rfl, ?_, ?_, ?_, ?_⟩ <;> split_ifs <;> linarith

theorem scoresShape_ite (cond : Prop) [Decidable cond] (s : List (String × ℚ))
    (k : String) (w : ℚ) (hw : 0 ≤ w) (h : scoresShape s) :
    scoresShape (if cond then scoreAdd s k w else s) := by
  split
  · exact scoresShape_scoreAdd s k w hw h
  · exact h

theorem rawScores_shape (features : List (String × ℚ)) :
    scoresShape (rawScores features) := by
  unfold rawScores
  apply scoresShape_ite _ _ _ _ (by norm_num)
  apply scoresShape_ite _ _ _ _ (by norm_num)
  apply scoresShape_ite _ _ _ _ (by norm_num)
  apply scoresShape_ite _ _ _ _ (by norm_num)
  apply scoresShape_ite _ _ _ _ (by norm_num)
  apply scoresShape_ite _ _ _ _ (by norm_num)
  apply scoresShape_ite _ _ _ _ (by norm_num)
  exact scoresShape_base

theorem pyBest_cons (kv x : String × ℚ) (xs : List (String × ℚ)) :
    pyBest kv (x :: xs) = pyBest (if kv.2 < x.2 then x else kv) xs := by
  simp only [pyBest, List.foldl_cons]

theorem pyBest_mem : ∀ (l : List (String × ℚ)) (kv : String × ℚ), pyBest kv l ∈ kv :: l
  | [], kv => by simp [pyBest]
  | x :: xs, kv => by
    by_cases h : kv.2 < x.2
    · rw [pyBest_cons, if_pos h]
      exact List.mem_cons_of_mem kv (pyBest_mem xs x)
    · rw [pyBest_cons, if_neg h]
      rcases List.mem_cons.mp (pyBest_mem xs kv) with h' | h'
      · rw [h']
        exact List.mem_cons_self kv (x :: xs)
      · exact List.mem_cons_of_mem kv (List.mem_cons_of_mem x h')

theorem pyBest_ge : ∀ (l : List (String × ℚ)) (kv : String × ℚ),
    kv.2 ≤ (pyBest kv l).2 ∧ ∀ x ∈ l, x.2 ≤ (pyBest kv l).2
  | [], kv => ⟨le_refl _, by simp⟩
  | x :: xs, kv => by
    by_cases h : kv.2 < x.2
    · rw [pyBest_cons, if_pos h]
      obtain ⟨h1, h2⟩ := pyBest_ge xs x
      refine ⟨le_of_lt (lt_of_lt_of_le h h1), fun y hy => ?_⟩
      rcases List.mem_cons.mp hy with h' | h'
      · rw [h']
        exact h1
      · exact h2 y h'
    · rw [pyBest_cons, if_neg h]
      obtain ⟨h1, h2⟩ := pyBest_ge xs kv
      refine ⟨h1, fun y hy => ?_⟩
      rcases List.mem_cons.mp hy with h' | h'
      · rw [h']
        exact le_trans (not_lt.mp h) h1
      · exact h2 y h'

theorem fget_of_mem_nodup : ∀ (l : List (String × ℚ)) (kv : String × ℚ),
    kv ∈ l → (l.map Prod.fst).Nodup → fget l kv.1 = kv.2
  | [], kv, h, _ => absurd h (List.not_mem_nil kv)
  | x :: xs, kv, h, hnd => by
    rcases List.mem_cons.mp h with h' | h'
    · subst h'
      simp [fget, dget_cons]
    · have hx : x.1 ≠ kv.1 := by
        intro e
        have : kv.1 ∈ xs.map Prod.fst := List.mem_map_of_mem Prod.fst h'
        rw [← e] at this
        exact (List.nodup_cons.mp (by simpa using hnd)).1 this
      rw [fget, dget_cons, if_neg hx]
      exact fget_of_mem_nodup xs kv h' (List.nodup_cons.mp (by simpa using hnd)).2

/-- The smoothed total `sum(scores.values())` for raw scores `a b c d`. -/
def totalOf (a b c d : ℚ) : ℚ :=
  (a + 1 / 100) + ((b + 1 / 100) + ((c + 1 / 100) + ((d + 1 / 100) + 0)))

/-- The probability dict `{k: v/total}` for raw scores `a b c d`. -/
def probsOf (a b c d : ℚ) : List (String × ℚ) :=
  [("push", (a + 1 / 100) / totalOf a b c d),
   ("conserve", (b + 1 / 100) / totalOf a b c d),
   ("prepare_pit", (c + 1 / 100) / totalOf a b c d),
   ("bluff", (d + 1 / 100) / totalOf a b c d)]

theorem predict_shape (features : List (String × ℚ)) (hemp : ¬ features.isEmpty = true)
    (a b c d : ℚ)
    (hs : rawScores features
      = [("push", a), ("conserve", b), ("prepare_pit", c), ("bluff", d)]) :
    predict features =
      (pyMax (probsOf a b c d), probsOf a b c d,
       fget (probsOf a b c d) (pyMax (probsOf a b c d))) := by
  unfold predict
  rw [if_neg hemp]
  simp only [hs, List.map_cons, List.map_nil, List.sum_cons, List.sum_nil,
    probsOf, totalOf]

theorem pyBest_nil (kv : String × ℚ) : pyBest kv [] = kv := rfl

theorem probs4_argmax (p1 p2 p3 p4 : ℚ) :
    fget [("push", p1), ("conserve", p2), ("prepare_pit", p3), ("bluff", p4)]
        (pyMax [("push", p1), ("conserve", p2), ("prepare_pit", p3), ("bluff", p4)])
      ∈ [p1, p2, p3, p4] ∧
    (∀ q ∈ [p1, p2, p3, p4],
      q ≤ fget [("push", p1), ("conserve", p2), ("prepare_pit", p3), ("bluff", p4)]
        (pyMax [("push", p1), ("conserve", p2), ("prepare_pit", p3), ("bluff", p4)])) ∧
    pyMax [("push", p1), ("conserve", p2), ("prepare_pit", p3), ("bluff", p4)]
      ∈ INTENTS := by
  have hmem : pyBest ("push", p1) [("conserve", p2), ("prepare_pit", p3), ("bluff", p4)]
      ∈ [("push", p1), ("conserve", p2), ("prepare_pit", p3), ("bluff", p4)] :=
    pyBest_mem [("conserve", p2), ("prepare_pit", p3), ("bluff", p4)] ("push", p1)
  have hnd : (([("push", p1), ("conserve", p2), ("prepare_pit", p3),
      ("bluff", p4)]).map Prod.fst).Nodup := by
    simp only [List.map_cons, List.map_nil]
    decide
  have hmax : pyMax [("push", p1), ("conserve", p2), ("prepare_pit", p3), ("bluff", p4)]
      = (pyBest ("push", p1) [("conserve", p2), ("prepare_pit", p3), ("bluff", p4)]).1 := rfl
  have hfg := fget_of_mem_nodup _ _ hmem hnd
  obtain ⟨hge1, hge2⟩ :=
    pyBest_ge [("conserve", p2), ("prepare_pit", p3), ("bluff", p4)] ("push", p1)
  refine ⟨?_, ?_, ?_⟩
  · rw [hmax, hfg]
    have := List.mem_map_of_mem Prod.snd hmem
    simpa using this
  · intro q hq
    rw [hmax, hfg]
    rcases List.mem_cons.mp hq with h | h
    · rw [h]
      exact hge1
    · rcases List.mem_cons.mp h with h' | h'
      · rw [h']
        exact hge2 ("conserve", p2) (by simp)
      · rcases List.mem_cons.mp h' with h'' | h''
        · rw [h'']
          exact hge2 ("prepare_pit", p3) (by simp)
        · rcases List.mem_cons.mp h'' with h3 | h3
          · rw [h3]
            exact hge2 ("bluff", p4) (by simp)
          · exact absurd h3 (List.not_mem_nil q)
  · rw [hmax]
    have := List.mem_map_of_mem Prod.fst hmem
    simpa [INTENTS] using this

/-- C5.  `predict` is total: for every feature dict (with non-negative
values, per the claim) it returns a probability dict keyed by exactly the
four fixed labels, with strictly positive values summing exactly to 1, and
a confidence that is the maximum probability (it is one of the
probabilities and bounds them all); the predicted label is one of the four
labels.  In the embedding the normalization never divides by zero because
the smoothed total is strictly positive. -/
theorem predict_total (features : List (String × ℚ))
    (_hpos : ∀ kv ∈ features, 0 ≤ kv.2) :
    (predict features).2.1.map Prod.fst = INTENTS ∧
    ((predict features).2.1.map Prod.snd).sum = 1 ∧
    (∀ kv ∈ (predict features).2.1, 0 < kv.2) ∧
    (predict features).2.2 ∈ (predict features).2.1.map Prod.snd ∧
    (∀ q ∈ (predict features).2.1.map Prod.snd, q ≤ (predict features).2.2) ∧
    (predict features).1 ∈ INTENTS := by
  by_cases hemp : features.isEmpty = true
  · have hpred : predict features
        = ("conserve", [("push", (1 : ℚ) / 4), ("conserve", 1 / 4),
            ("prepare_pit", 1 / 4), ("bluff", 1 / 4)], 1 / 4) := by
      unfold predict
      rw [if_pos hemp]
      rfl
    rw [hpred]
    refine ⟨by simp [INTENTS], by norm_num, ?_, by norm_num, ?_, by simp [INTENTS]⟩
    · intro kv hkv
      fin_cases hkv <;> norm_num
    · intro q hq
      fin_cases hq <;> norm_num
  · obtain ⟨a, b, c, d, hs, ha, hb, hc, hd⟩ := rawScores_shape features
    have hT : 0 < totalOf a b c d := by
      unfold totalOf
      linarith
    obtain ⟨m1, m2, m3⟩ := probs4_argmax ((a + 1 / 100) / totalOf a b c d)
      ((b + 1 / 100) / totalOf a b c d) ((c + 1 / 100) / totalOf a b c d)
      ((d + 1 / 100) / totalOf a b c d)
    rw [predict_shape features hemp a b c d hs]
    refine ⟨by simp [probsOf, INTENTS], ?_, ?_, ?_, ?_, ?_⟩
    · simp only [probsOf, List.map_cons, List.map_nil, List.sum_cons, List.sum_nil]
      have hsum : (a + 1 / 100) / totalOf a b c d + ((b + 1 / 100) / totalOf a b c d +
          ((c + 1 / 100) / totalOf a b c d + ((d + 1 / 100) / totalOf a b c d + 0)))
          = totalOf a b c d / totalOf a b c d := by
        unfold totalOf
        ring
      rw [hsum, div_self hT.ne']
    · intro kv hkv
      simp only [probsOf] at hkv
      fin_cases hkv <;> exact div_pos (by linarith) hT
    · simpa only [probsOf, List.map_cons, List.map_nil] using m1
    · intro q hq
      simp only [probsOf, List.map_cons, List.map_nil] at hq
      simpa only [probsOf] using m2 q hq
    · simpa only [probsOf] using m3

theorem predict_total_witness :
    ((predict [("speed_mean", 30)]).2.1.map Prod.fst = INTENTS ∧
    ((predict [("speed_mean", 30)]).2.1.map Prod.snd).sum = 1 ∧
    (∀ kv ∈ (predict [("speed_mean", 30)]).2.1, 0 < kv.2) ∧
    (predict [("speed_mean", 30)]).2.2
      ∈ (predict [("speed_mean", 30)]).2.1.map Prod.snd ∧
    (∀ q ∈ (predict [("speed_mean", 30)]).2.1.map Prod.snd,
      q ≤ (predict [("speed_mean", 30)]).2.2) ∧
    (predict [("speed_mean", 30)]).1 ∈ INTENTS) :=
  predict_total [("speed_mean", 30)]
    (by intro kv hkv; fin_cases hkv; norm_num)

/-- C6.  On an empty feature dict `predict` returns the uniform distribution
assigning probability `1/4` to each of exactly the four labels `push`,
`conserve`, `prepare_pit`, `bluff`, with confidence `1/4` (and the neutral
label `conserve`). -/
theorem predict_empty_uniform :
    predict [] = ("conserve",
      [("push", (1 : ℚ) / 4), ("conserve", 1 / 4),
       ("prepare_pit", 1 / 4), ("bluff", 1 / 4)], 1 / 4) := rfl

/-- C10.  When the feature dict is non-empty but no scoring rule's condition
holds, every label's smoothed score is exactly the smoothing constant
`1/100`, so `predict` returns the uniform distribution with probability
`1/4` per label, and the predicted label is `"push"` — the first label in
the fixed order, because Python's `max` keeps the earliest maximal entry —
whereas for an empty feature dict the predicted label is `"conserve"`. -/
theorem predict_tiebreak (features : List (String × ℚ)) (hne : features ≠ [])
    (h1 : ¬ (35 < fget features "speed_mean" ∧ 1 / 2 < fget features "delta_speed" ∧
      40 < fget features "throttle_mean"))
    (h2 : ¬ (3 < fget features "speed_std"))
    (h3 : ¬ (80 < fget features "tyre_temp_mean" ∧ 10 < fget features "brake_mean"))
    (h4 : ¬ (20 < fget features "brake_mean" ∧ fget features "lapprog_slope" < 0))
    (h5 : ¬ (fget features "speed_mean" < 25 ∧ fget features "throttle_mean" < 30 ∧
      fget features "speed_std" < 2))
    (h6 : ¬ (|fget features "lapprog_slope"| < 1 / 1000))
    (h7 : ¬ (6 < fget features "speed_std" ∧ 3 < |fget features "delta_speed"| ∧
      fget features "brake_mean" < 5)) :
    ((rawScores features).map (fun kv => (kv.1, kv.2 + 1 / 100))).map Prod.snd
      = [1 / 100, 1 / 100, 1 / 100, 1 / 100] ∧
    predict features = ("push",
      [("push", (1 : ℚ) / 4), ("conserve", 1 / 4),
       ("prepare_pit", 1 / 4), ("bluff", 1 / 4)], 1 / 4) ∧
    (predict []).1 = "conserve" := by
  have hbase : rawScores features
      = [("push", 0), ("conserve", 0), ("prepare_pit", 0), ("bluff", 0)] := by
    unfold rawScores
    simp only [if_neg h1, if_neg h2, if_neg h3, if_neg h4, if_neg h5, if_neg h6,
      if_neg h7]
    rfl
  have hemp : ¬ features.isEmpty = true := by
    simpa [List.isEmpty_iff] using hne
  refine ⟨by rw [hbase]; norm_num, ?_, rfl⟩
  rw [predict_shape features hemp 0 0 0 0 hbase]
  have hp : probsOf 0 0 0 0
      = [("push", (1 : ℚ) / 4), ("conserve", 1 / 4),
         ("prepare_pit", 1 / 4), ("bluff", 1 / 4)] := by
    unfold probsOf totalOf
    norm_num
  rw [hp]
  have hm : pyMax [("push", (1 : ℚ) / 4), ("conserve", 1 / 4),
      ("prepare_pit", 1 / 4), ("bluff", 1 / 4)] = "push" := by
    norm_num [pyMax, pyBest_cons, pyBest_nil]
  have hf : fget [("push", (1 : ℚ) / 4), ("conserve", 1 / 4),
      ("prepare_pit", 1 / 4), ("bluff", 1 / 4)] "push" = 1 / 4 := by
    simp [fget, dget_cons]
  rw [hm, hf]

theorem predict_tiebreak_witness :
    (((rawScores [("speed_mean", 30), ("lapprog_slope", 1)]).map
        (fun kv => (kv.1, kv.2 + 1 / 100))).map Prod.snd
      = [1 / 100, 1 / 100, 1 / 100, 1 / 100] ∧
    predict [("speed_mean", 30), ("lapprog_slope", 1)] = ("push",
      [("push", (1 : ℚ) / 4), ("conserve", 1 / 4),
       ("prepare_pit", 1 / 4), ("bluff", 1 / 4)], 1 / 4) ∧
    (predict []).1 = "conserve") :=
  predict_tiebreak [("speed_mean", 30), ("lapprog_slope", 1)] (by decide)
    (by decide) (by decide) (by decide) (by decide) (by decide)
    (by
      have hl : fget [("speed_mean", (30 : ℚ)), ("lapprog_slope", 1)] "lapprog_slope"
          = 1 := by decide
      rw [hl]
      norm_num)
    (by decide)
